import Mathlib

/-!
Verification of the push-notification delivery core of the calendar server
(`calendarserver/push`): frame buffering, token history, error and feedback
processing, outbound frame encoding, enqueue fan-out, staggered sending and
token validation.  The delivery engine itself (`applepush.py`, `util.py`) is
not present in this source tree (only its test suite is), so each component
is modelled from the specification's own description of it; the models are
executable and are checked against the concrete scenarios the spec records.
-/

namespace ApplePush

/-! ## FrameBuffer -/

/-- Modelled from the spec: `FrameBuffer.drain` for fixed-length `n`-byte
frames (`applepush.py` is missing from the tree).  Repeatedly takes one
complete `n`-byte frame off the front of the buffer; stops as soon as fewer
than `n` bytes remain and retains the remainder.  Returns the decoded frames
in order together with the retained trailing bytes. -/
def decodeFrames (n : Nat) (buf : List Nat) : List (List Nat) × List Nat :=
  if 0 < n ∧ n ≤ buf.length then
    let rest := decodeFrames n (buf.drop n)
    (buf.take n :: rest.1, rest.2)
  else
    ([], buf)
termination_by buf.length
decreasing_by
  simp only [List.length_drop]
  omega

/-- Modelled from the spec: one `feed` + decode pass of the FrameBuffer.
The state is `(frames emitted so far, retained buffer)`; the new chunk is
appended to the buffer and every complete frame is drained. -/
def feedChunk (n : Nat) (st : List (List Nat) × List Nat) (chunk : List Nat) :
    List (List Nat) × List Nat :=
  let d := decodeFrames n (st.2 ++ chunk)
  (st.1 ++ d.1, d.2)

/-- Modelled from the spec: feeding a sequence of chunks into an initially
empty FrameBuffer, collecting all frames emitted across the passes. -/
def feedChunks (n : Nat) (chunks : List (List Nat)) : List (List Nat) × List Nat :=
  chunks.foldl (feedChunk n) ([], [])

/-! ## TokenHistory -/

/-- Modelled from the spec: the bounded, insertion-ordered correlation table
of `calendarserver/push/util.py` (missing from the tree), mapping a
monotonically increasing local identifier to a device token. -/
structure TokenHistory where
  maxSize : Nat
  identifier : Nat
  history : List (Nat × String)
deriving DecidableEq

/-- Modelled from the spec: a TokenHistory constructed with the given
capacity starts empty with `lastIdentifier = 0` (identifiers start at 1). -/
def TokenHistory.new (maxSize : Nat) : TokenHistory :=
  ⟨maxSize, 0, []⟩

/-- Modelled from the spec: `add(token)` assigns `lastIdentifier + 1`,
appends `(identifier, token)`, evicts the oldest entry if the size exceeds
the capacity, and returns the new identifier. -/
def TokenHistory.add (h : TokenHistory) (token : String) : Nat × TokenHistory :=
  let ident := h.identifier + 1
  let appended := h.history ++ [(ident, token)]
  let trimmed := if h.maxSize < appended.length then appended.tail else appended
  (ident, ⟨h.maxSize, ident, trimmed⟩)

/-- Sequencing `add` over a list of tokens, returning the final history. -/
def TokenHistory.addAll (h : TokenHistory) : List String → TokenHistory
  | [] => h
  | t :: ts => TokenHistory.addAll (h.add t).2 ts

/-- The identifiers returned by sequencing `add` over a list of tokens. -/
def TokenHistory.addIds (h : TokenHistory) : List String → List Nat
  | [] => []
  | t :: ts => (h.add t).1 :: TokenHistory.addIds (h.add t).2 ts

/-- Modelled from the spec: `extractIdentifier(identifier)` scans entries
for an exact identifier match; if found, removes that single entry and
returns its token; if not found, returns none and leaves the history
unchanged. -/
def TokenHistory.extractIdentifier (h : TokenHistory) (ident : Nat) :
    Option String × TokenHistory :=
  match h.history.find? (fun p => p.1 == ident) with
  | none => (none, h)
  | some p =>
      (some p.2, ⟨h.maxSize, h.identifier, h.history.eraseP (fun q => q.1 == ident)⟩)

/-! ## Subscriptions, provider errors and feedback -/

/-- Modelled from the spec: a subscription record of the external store
(spec section 3), restricted to the fields the delivery engine reads. -/
structure Subscription where
  token : String
  resourceKey : String
  modified : Nat
  subscriberID : String
deriving DecidableEq

/-- Modelled from the spec: `processError(status, identifier)` of the
ProviderConnection (`applepush.py` is missing from the tree).  The token is
looked up via `TokenHistory.extractIdentifier`; if none is found the call
is a no-op; if found and the status is the invalid-token code 8, every
subscription for that token is deleted from the store; for other status
codes the store is left alone (the error is only reported). -/
def processError (status ident : Nat) (hist : TokenHistory)
    (store : List Subscription) : TokenHistory × List Subscription :=
  let e := hist.extractIdentifier ident
  match e.1 with
  | none => (e.2, store)
  | some tok =>
      if status = 8 then (e.2, store.filter (fun s => s.token != tok))
      else (e.2, store)

/-- Big-endian interpretation of a byte list. -/
def beNat (bs : List Nat) : Nat :=
  bs.foldl (fun acc b => acc * 256 + b % 256) 0

/-- One lowercase hexadecimal digit character. -/
def hexDigitChar (v : Nat) : Char :=
  if v < 10 then Char.ofNat (48 + v) else Char.ofNat (87 + v)

/-- Modelled from the spec: `TokenCodec.fromBinary`, turning 32 raw bytes
into the 64-character lowercase-hex text form of a device token. -/
def fromBinary (bs : List Nat) : String :=
  String.mk (bs.foldr (fun b acc => hexDigitChar (b / 16 % 16) :: hexDigitChar (b % 16) :: acc) [])

/-- Modelled from the spec: the feedback-driven purge (spec 4.6) — for a
feedback report `(timestamp, token)`, delete every subscription matching
the token whose `modified` timestamp is strictly older than `timestamp`. -/
def purgeFeedback (timestamp : Nat) (token : String)
    (store : List Subscription) : List Subscription :=
  store.filter (fun s => !(s.token == token && decide (s.modified < timestamp)))

/-- Modelled from the spec: processing one decoded 38-byte feedback frame
`timestamp(4B) | tokenLength(2B) | token(32B)`: the timestamp is the
big-endian value of the first 4 bytes and the token is the hex form of the
trailing 32 bytes; anything that is not a 38-byte frame is never handed over
by the FrameBuffer and leaves the store untouched. -/
def applyFeedbackFrame (frame : List Nat) (store : List Subscription) :
    List Subscription :=
  if frame.length = 38 then
    purgeFeedback (beNat (frame.take 4)) (fromBinary (frame.drop 6)) store
  else store

/-! ## Outbound frame encoding -/

/-- Two big-endian bytes of a 16-bit value. -/
def be2 (v : Nat) : List Nat :=
  [v / 256 % 256, v % 256]

/-- Four big-endian bytes of a 32-bit value. -/
def be4 (v : Nat) : List Nat :=
  [v / 16777216 % 256, v / 65536 % 256, v / 256 % 256, v % 256]

/-- Modelled from the spec: one outbound frame item — a 1-byte item id, a
2-byte big-endian content length, then the content bytes. -/
def apnItem (itemId : Nat) (content : List Nat) : List Nat :=
  itemId :: be2 content.length ++ content

/-- The code points of a string as bytes (the payloads at hand are ASCII,
where code points and UTF-8 bytes coincide). -/
def strBytes (s : String) : List Nat :=
  s.data.map Char.toNat

/-- Modelled from the spec: the JSON push payload, an object carrying the
changed resource key and the two timestamps. -/
def jsonPayload (key : String) (dataChangedTimestamp pushSubmittedTimestamp : Nat) : String :=
  "\x7b\"" ++ "key" ++ "\" : \"" ++ key ++ "\", \"" ++ "dataChangedTimestamp"
    ++ "\" : " ++ toString dataChangedTimestamp ++ ", \"" ++ "pushRequestSubmittedTimestamp"
    ++ "\" : " ++ toString pushSubmittedTimestamp ++ "\x7d"

/-- The payload bytes of one notification. -/
def payloadBytes (key : String) (dct pst : Nat) : List Nat :=
  strBytes (jsonPayload key dct pst)

/-- Modelled from the spec: the items of one outbound push frame, in the
fixed order 1 = 32-byte binary device token, 2 = JSON payload, 3 = 4-byte
notification identifier, 4 = 4-byte expiration epoch, 5 = 1-byte priority
constant. -/
def itemsOf (tokenBin payload : List Nat) (ident expiration priorityByte : Nat) :
    List Nat :=
  apnItem 1 tokenBin ++ apnItem 2 payload ++ apnItem 3 (be4 ident)
    ++ apnItem 4 (be4 expiration) ++ apnItem 5 [priorityByte]

/-- Modelled from the spec: one outbound push frame — command byte 2, a
4-byte big-endian frame length covering only the items, then the items. -/
def encodeFrame (tokenBin payload : List Nat) (ident expiration priorityByte : Nat) :
    List Nat :=
  2 :: be4 (itemsOf tokenBin payload ident expiration priorityByte).length
    ++ itemsOf tokenBin payload ident expiration priorityByte

/-- Modelled from the spec: the outbound frame of one notification (spec
4.5), with the JSON payload built from the resource key and timestamps. -/
def encodeNotification (tokenBin : List Nat) (key : String)
    (dataChangedTimestamp pushSubmittedTimestamp ident expiration priorityByte : Nat) :
    List Nat :=
  encodeFrame tokenBin (payloadBytes key dataChangedTimestamp pushSubmittedTimestamp)
    ident expiration priorityByte

/-! ## PushService enqueue and delivery queues -/

/-- Modelled from the spec: the two delivery priorities. -/
inductive PushPriority where
  | high
  | low
deriving DecidableEq

/-- Modelled from the spec: a queued notification — the `(token,
resourceKey)` pair, the data-changed timestamp and the priority. -/
structure QueuedNotification where
  token : String
  resourceKey : String
  dataChangedTimestamp : Nat
  priority : PushPriority
deriving DecidableEq

/-- Modelled from the spec: one application identity of the PushService —
its namespace path part `pfx`, connection flag, and DeliveryQueue. -/
structure Identity where
  pfx : String
  connected : Bool
  queue : List QueuedNotification
deriving DecidableEq

/-- Modelled from the spec: whether a resource key falls under an
identity's namespace — the namespace path characters begin the key. -/
def inNamespace (pfx key : String) : Bool :=
  pfx.data.isPrefixOf key.data

/-- The subscriptions of the store matching a resource key. -/
def matchingSubs (store : List Subscription) (key : String) : List Subscription :=
  store.filter (fun s => s.resourceKey == key)

/-- Modelled from the spec: `PushService.enqueue` restricted to one
identity — if the identity's namespace part begins the resource key, one
QueuedNotification per matching subscription is appended to its queue;
otherwise the identity is untouched. -/
def enqueueIdentity (store : List Subscription) (key : String) (ts : Nat)
    (prio : PushPriority) (idn : Identity) : Identity :=
  if inNamespace idn.pfx key then
    ⟨idn.pfx, idn.connected,
      idn.queue ++ (matchingSubs store key).map (fun s => ⟨s.token, key, ts, prio⟩)⟩
  else idn

/-- Modelled from the spec: `PushService.enqueue` over all identities. -/
def serviceEnqueue (idents : List Identity) (store : List Subscription) (key : String)
    (ts : Nat) (prio : PushPriority) : List Identity :=
  idents.map (enqueueIdentity store key ts prio)

/-- Modelled from the spec: on connect the DeliveryQueue drains — every
queued item is framed and sent in order and the queue becomes empty. -/
def connectAndDrain (frameOf : QueuedNotification → List Nat) (idn : Identity) :
    List (List Nat) × Identity :=
  (idn.queue.map frameOf, ⟨idn.pfx, true, []⟩)

/-! ## Staggered sending -/

/-- Modelled from the spec: the staggered draining schedule of a
DeliveryQueue (spec 4.4) — when the connection is available, the first
queued item is sent immediately and, with staggering enabled, each further
item is scheduled one interval after the previous send; with staggering
disabled every item is sent at once. -/
def sendTimes (enabled : Bool) (interval start count : Nat) : List Nat :=
  (List.range count).map (fun i => if enabled then start + i * interval else start)

/-- How many scheduled sends have happened by time `t`. -/
def sentBy (t : Nat) (times : List Nat) : Nat :=
  (times.filter (fun x => decide (x ≤ t))).length

/-! ## Token validation -/

/-- Whether a character is a hexadecimal digit, lowercase or uppercase. -/
def isHexChar (c : Char) : Bool :=
  ('0' ≤ c && c ≤ '9') || ('a' ≤ c && c ≤ 'f') || ('A' ≤ c && c ≤ 'F')

/-- Modelled from the spec: `TokenCodec.validate` / `validToken` of
`calendarserver/push/util.py` (missing from the tree) — true iff the text
is exactly 64 characters, all hexadecimal digits (case-insensitive, spec
4.1). -/
def validToken (text : String) : Bool :=
  text.length == 64 && text.data.all isHexChar

theorem decodeFrames_of_short {n : Nat} {buf : List Nat} (h : buf.length < n) :
    decodeFrames n buf = ([], buf) := by
  rw [decodeFrames, if_neg (by omega)]

theorem decodeFrames_join (n : Nat) (hn : 0 < n) (buf : List Nat) :
    (decodeFrames n buf).1.flatten ++ (decodeFrames n buf).2 = buf ∧
      (∀ f ∈ (decodeFrames n buf).1, f.length = n) ∧
      (decodeFrames n buf).2.length < n := by
  induction buf using decodeFrames.induct n with
  | case1 buf h ih =>
    rw [decodeFrames]
    simp only [if_pos h]
    refine ⟨?_, ?_, ih.2.2⟩
    · simp only [List.flatten_cons, List.append_assoc, ih.1, List.take_append_drop]
    · intro f hf
      rcases List.mem_cons.mp hf with hf | hf
      · subst hf
        exact List.length_take_of_le h.2
      · exact ih.2.1 f hf
  | case2 buf h =>
    rw [decodeFrames]
    simp only [if_neg h]
    refine ⟨rfl, by simp, ?_⟩
    simp only [not_and, not_le] at h
    exact h hn

theorem decodeFrames_append (n : Nat) (hn : 0 < n) (a c : List Nat) :
    decodeFrames n (a ++ c) =
      ((decodeFrames n a).1 ++ (decodeFrames n ((decodeFrames n a).2 ++ c)).1,
        (decodeFrames n ((decodeFrames n a).2 ++ c)).2) := by
  induction a using decodeFrames.induct n with
  | case1 a h ih =>
    have hfront : decodeFrames n a =
        (a.take n :: (decodeFrames n (a.drop n)).1, (decodeFrames n (a.drop n)).2) := by
      rw [decodeFrames, if_pos h]
    have hcond : 0 < n ∧ n ≤ (a ++ c).length := by
      simp only [List.length_append]
      omega
    have htake : (a ++ c).take n = a.take n := List.take_append_of_le_length h.2
    have hdrop : (a ++ c).drop n = a.drop n ++ c := List.drop_append_of_le_length h.2
    rw [decodeFrames, if_pos hcond, htake, hdrop, ih, hfront]
    simp
  | case2 a h =>
    have ha : decodeFrames n a = ([], a) := by
      rw [decodeFrames, if_neg h]
    rw [ha]
    simp

theorem feedChunks_eq_decode (n : Nat) (hn : 0 < n) (chunks : List (List Nat)) :
    feedChunks n chunks = decodeFrames n chunks.flatten := by
  suffices h : ∀ (cs : List (List Nat)) (acc : List (List Nat)) (b : List Nat),
      b.length < n →
      cs.foldl (feedChunk n) (acc, b) =
        (acc ++ (decodeFrames n (b ++ cs.flatten)).1, (decodeFrames n (b ++ cs.flatten)).2) by
    have h0 := h chunks [] [] (by simpa using hn)
    simp only [List.nil_append] at h0
    rw [feedChunks, h0]
  intro cs
  induction cs with
  | nil =>
    intro acc b hb
    rw [List.foldl_nil, List.flatten_nil, List.append_nil, decodeFrames_of_short hb,
      List.append_nil]
  | cons c cs ih =>
    intro acc b hb
    rw [List.foldl_cons, List.flatten_cons, feedChunk,
      ih _ _ (decodeFrames_join n hn (b ++ c)).2.2, ← List.append_assoc,
      decodeFrames_append n hn (b ++ c) cs.flatten, List.append_assoc]

theorem feedChunks_retention (n : Nat) (hn : 0 < n) (chunks : List (List Nat)) :
    (feedChunks n chunks).1.flatten ++ (feedChunks n chunks).2 = chunks.flatten ∧
      (∀ f ∈ (feedChunks n chunks).1, f.length = n) ∧
      (feedChunks n chunks).2.length = chunks.flatten.length % n ∧
      (feedChunks n chunks).2.length < n := by
  rw [feedChunks_eq_decode n hn]
  obtain ⟨hj, hl, hr⟩ := decodeFrames_join n hn chunks.flatten
  refine ⟨hj, hl, ?_, hr⟩
  have hfl : (decodeFrames n chunks.flatten).1.flatten.length
      = (decodeFrames n chunks.flatten).1.length * n := by
    rw [List.length_flatten,
      List.eq_replicate_of_mem (l := (decodeFrames n chunks.flatten).1.map List.length)
        (a := n) (by simpa using hl)]
    simp [List.sum_replicate, Nat.mul_comm]
  have htot := congrArg List.length hj
  rw [List.length_append, hfl] at htot
  rw [← htot, Nat.mul_comm, Nat.mul_add_mod, Nat.mod_eq_of_lt hr]

/-- C1: FrameBuffer chunk-invariance and retention.  For every byte sequence
and every partition of it into successive feed chunks (including one byte at
a time), the decoded frame sequence equals the one obtained by feeding the
whole sequence in a single chunk; the frames concatenated with the retained
buffer reproduce the bytes in fed order; every emitted frame is complete
(`n` bytes) and the retained buffer is a strict-prefix-of-a-frame remainder
(`total % n` bytes, `< n`); for the 6-byte error-frame instantiation feeding
7 bytes leaves exactly 1 byte buffered, and for the 38-byte feedback
instantiation feeding 39 bytes leaves exactly 1 byte buffered. -/
theorem frameBuffer_chunk_invariance (n : Nat) (hn : 0 < n) (chunks : List (List Nat)) :
    feedChunks n chunks = feedChunks n [chunks.flatten] ∧
    (feedChunks n chunks).1.flatten ++ (feedChunks n chunks).2 = chunks.flatten ∧
    (∀ f ∈ (feedChunks n chunks).1, f.length = n) ∧
    (feedChunks n chunks).2.length = chunks.flatten.length % n ∧
    (feedChunks n chunks).2.length < n ∧
    (∀ bs : List Nat, bs.length = 7 → (feedChunks 6 [bs]).2.length = 1) ∧
    (∀ bs : List Nat, bs.length = 39 → (feedChunks 38 [bs]).2.length = 1) := by
  obtain ⟨h1, h2, h3, h4⟩ := feedChunks_retention n hn chunks
  refine ⟨?_, h1, h2, h3, h4, ?_, ?_⟩
  · rw [feedChunks_eq_decode n hn, feedChunks_eq_decode n hn]
    simp
  · intro bs hbs
    have h6 := (feedChunks_retention 6 (by omega) [bs]).2.2.1
    simpa [hbs] using h6
  · intro bs hbs
    have h38 := (feedChunks_retention 38 (by omega) [bs]).2.2.1
    simpa [hbs] using h38

/-- Witness for C1: three uneven chunks of a 7-byte stream through the
6-byte decoder give the same frames as a single feed, with 1 byte retained. -/
theorem frameBuffer_chunk_invariance_witness :
    0 < 6 ∧
      feedChunks 6 [[10], [20, 30], [40, 50, 60, 70]]
        = feedChunks 6 [[10, 20, 30, 40, 50, 60, 70]] ∧
      feedChunks 6 [[10], [20, 30], [40, 50, 60, 70]]
        = ([[10, 20, 30, 40, 50, 60]], [70]) := by
  refine ⟨by decide, (frameBuffer_chunk_invariance 6 (by decide) _).1, ?_⟩
  simp [feedChunks, feedChunk, decodeFrames]

theorem decodeFrames_one_frame {n : Nat} {bs : List Nat} (hn : 0 < n)
    (hlo : n ≤ bs.length) (hhi : bs.length < 2 * n) :
    decodeFrames n bs = ([bs.take n], bs.drop n) := by
  rw [decodeFrames, if_pos ⟨hn, hlo⟩,
    decodeFrames_of_short (by simp only [List.length_drop]; omega)]

/-- C10: the inbound fixed-length decoders consume frames purely by byte
count and never inspect frame content: any 7 bytes fed to the 6-byte
error-frame decoder yield the first 6 bytes as one frame with exactly 1 byte
retained, and any 39 bytes fed to the 38-byte feedback decoder yield the
first 38 bytes as one frame with exactly 1 byte retained; no content is ever
rejected. -/
theorem inbound_decode_content_blind (bs : List Nat) :
    (bs.length = 7 →
      decodeFrames 6 bs = ([bs.take 6], bs.drop 6) ∧ (decodeFrames 6 bs).2.length = 1) ∧
    (bs.length = 39 →
      decodeFrames 38 bs = ([bs.take 38], bs.drop 38) ∧ (decodeFrames 38 bs).2.length = 1) := by
  constructor
  · intro h7
    have he := @decodeFrames_one_frame 6 bs (by omega) (by omega) (by omega)
    refine ⟨he, ?_⟩
    rw [he]
    simp only [List.length_drop]
    omega
  · intro h39
    have he := @decodeFrames_one_frame 38 bs (by omega) (by omega) (by omega)
    refine ⟨he, ?_⟩
    rw [he]
    simp only [List.length_drop]
    omega

/-- Witness for C10: 7 bytes whose command byte is 9 (not a valid error
command) are still consumed as a 6-byte frame plus 1 retained byte. -/
theorem inbound_decode_content_blind_witness :
    [9, 9, 9, 9, 9, 9, 9].length = 7 ∧
      decodeFrames 6 [9, 9, 9, 9, 9, 9, 9] = ([[9, 9, 9, 9, 9, 9]], [9]) := by
  refine ⟨by decide, ?_⟩
  have h := ((inbound_decode_content_blind [9, 9, 9, 9, 9, 9, 9]).1 (by decide)).1
  simpa using h

theorem TokenHistory.add_enum (K : Nat) (hK : 0 < K) (pre : List String) (t : String) :
    TokenHistory.add ⟨K, pre.length, (List.enumFrom 1 pre).drop (pre.length - K)⟩ t
      = (pre.length + 1,
          ⟨K, pre.length + 1, (List.enumFrom 1 (pre ++ [t])).drop (pre.length + 1 - K)⟩) := by
  have henum : List.enumFrom 1 (pre ++ [t])
      = List.enumFrom 1 pre ++ [(pre.length + 1, t)] := by
    rw [List.enumFrom_append]
    simp [Nat.add_comm]
  have hElen : (List.enumFrom 1 pre).length = pre.length := List.enumFrom_length
  rw [TokenHistory.add, henum]
  by_cases hle : K ≤ pre.length
  · have hDlen : ((List.enumFrom 1 pre).drop (pre.length - K)).length = K := by
      rw [List.length_drop, hElen]
      omega
    have hcond : K < ((List.enumFrom 1 pre).drop (pre.length - K)
        ++ [(pre.length + 1, t)]).length := by
      rw [List.length_append, hDlen, List.length_singleton]
      omega
    simp only [if_pos hcond]
    obtain ⟨d, D, hD⟩ := List.exists_cons_of_ne_nil
      (l := (List.enumFrom 1 pre).drop (pre.length - K))
      (by intro hnil; rw [hnil] at hDlen; simp at hDlen; omega)
    have htail : ((List.enumFrom 1 pre).drop (pre.length - K)
        ++ [(pre.length + 1, t)]).tail
          = ((List.enumFrom 1 pre).drop (pre.length - K)).tail ++ [(pre.length + 1, t)] := by
      rw [hD]
      rfl
    rw [htail, List.tail_drop]
    have harith : pre.length - K + 1 = pre.length + 1 - K := by omega
    rw [harith, List.drop_append_of_le_length (by rw [hElen]; omega)]
  · have hzero : pre.length - K = 0 := by omega
    have hzero1 : pre.length + 1 - K = 0 := by omega
    have hcond : ¬ K < ((List.enumFrom 1 pre).drop (pre.length - K)
        ++ [(pre.length + 1, t)]).length := by
      rw [List.length_append, List.length_drop, hElen]
      simp only [List.length_singleton]
      omega
    simp only [if_neg hcond]
    rw [hzero, hzero1, List.drop_zero, List.drop_zero]

theorem TokenHistory.addAll_enum (K : Nat) (hK : 0 < K) :
    ∀ (ts pre : List String),
      TokenHistory.addAll ⟨K, pre.length, (List.enumFrom 1 pre).drop (pre.length - K)⟩ ts
        = ⟨K, pre.length + ts.length,
            (List.enumFrom 1 (pre ++ ts)).drop (pre.length + ts.length - K)⟩ ∧
      TokenHistory.addIds ⟨K, pre.length, (List.enumFrom 1 pre).drop (pre.length - K)⟩ ts
        = List.range' (pre.length + 1) ts.length := by
  intro ts
  induction ts with
  | nil =>
    intro pre
    simp [TokenHistory.addAll, TokenHistory.addIds]
  | cons t ts ih =>
    intro pre
    have ihh := ih (pre ++ [t])
    simp only [List.length_append, List.length_singleton] at ihh
    constructor
    · rw [TokenHistory.addAll, TokenHistory.add_enum K hK pre t, ihh.1, List.append_assoc,
        List.singleton_append]
      have h1 : pre.length + 1 + ts.length = pre.length + (ts.length + 1) := by omega
      have h2 : pre.length + (t :: ts).length = pre.length + (ts.length + 1) := by
        simp
      rw [h1, h2]
    · rw [TokenHistory.addIds, TokenHistory.add_enum K hK pre t, ihh.2]
      have h1 : (t :: ts).length = ts.length + 1 := rfl
      rw [h1, List.range'_succ]

/-- C2: TokenHistory is a bounded FIFO with strictly monotone identifiers:
for capacity `K > 0` and `N > K` adds, the history holds exactly the `K`
most-recently-added `(identifier, token)` entries in insertion order, and
the i-th `add` call (1-based) returns identifier `i` — the returned
identifiers are `[1, ..., N]` with no reuse after eviction. -/
theorem tokenHistory_bounded_fifo (K : Nat) (hK : 0 < K) (tokens : List String)
    (hN : K < tokens.length) :
    (TokenHistory.addAll (TokenHistory.new K) tokens).history
        = (List.enumFrom 1 tokens).drop (tokens.length - K) ∧
      (TokenHistory.addAll (TokenHistory.new K) tokens).history.length = K ∧
      TokenHistory.addIds (TokenHistory.new K) tokens = List.range' 1 tokens.length ∧
      (∀ i, i < tokens.length →
        (TokenHistory.addIds (TokenHistory.new K) tokens)[i]? = some (1 + i)) := by
  have h := TokenHistory.addAll_enum K hK tokens []
  simp only [List.length_nil, List.nil_append, Nat.zero_add, Nat.zero_sub,
    List.enumFrom_nil, List.drop_nil] at h
  have hnew : TokenHistory.new K = ⟨K, 0, ([] : List (Nat × String))⟩ := rfl
  rw [hnew]
  refine ⟨?_, ?_, h.2, ?_⟩
  · rw [h.1]
  · rw [h.1]
    simp only [List.length_drop, List.enumFrom_length]
    omega
  · intro i hi
    rw [h.2]
    simp [List.getElem?_range', hi]

/-- Witness for C2: capacity 2, three adds; the returned identifiers are
1, 2, 3 and only the two most recent entries survive, in order. -/
theorem tokenHistory_bounded_fifo_witness :
    0 < 2 ∧ 2 < (["a", "b", "c"] : List String).length ∧
      (TokenHistory.addAll (TokenHistory.new 2) ["a", "b", "c"]).history
        = (List.enumFrom 1 ["a", "b", "c"]).drop (["a", "b", "c"].length - 2) ∧
      (TokenHistory.addAll (TokenHistory.new 2) ["a", "b", "c"]).history
        = [(2, "b"), (3, "c")] ∧
      TokenHistory.addIds (TokenHistory.new 2) ["a", "b", "c"] = [1, 2, 3] := by
  have h := tokenHistory_bounded_fifo 2 (by decide) ["a", "b", "c"] (by decide)
  refine ⟨by decide, by decide, h.1, by decide, by decide⟩

theorem eraseP_eq_filter_of_nodup (ident : Nat) :
    ∀ (l : List (Nat × String)), (l.map Prod.fst).Nodup →
      l.eraseP (fun p => p.1 == ident) = l.filter (fun p => p.1 != ident) := by
  intro l
  induction l with
  | nil => intro _; rfl
  | cons a l ih =>
    intro hnd
    simp only [List.map_cons, List.nodup_cons] at hnd
    by_cases ha : a.1 = ident
    · rw [List.eraseP_cons_of_pos (by simp [ha]), List.filter_cons_of_neg (by simp [ha]),
        List.filter_eq_self.mpr]
      intro b hb
      simp only [bne_iff_ne, ne_eq]
      intro hb1
      apply hnd.1
      have hbm : b.1 ∈ List.map Prod.fst l := List.mem_map_of_mem Prod.fst hb
      rwa [hb1, ← ha] at hbm
    · rw [List.eraseP_cons_of_neg (by simp [ha]), List.filter_cons_of_pos (by simp [ha]),
        ih hnd.2]

theorem TokenHistory.extract_not_found (h : TokenHistory) (ident : Nat)
    (hno : ∀ tok, (ident, tok) ∉ h.history) :
    h.extractIdentifier ident = (none, h) := by
  have hfind : h.history.find? (fun p => p.1 == ident) = none := by
    rw [List.find?_eq_none]
    intro p hp
    simp only [beq_iff_eq]
    intro heq
    exact hno p.2 (by rw [← heq, Prod.mk.eta]; exact hp)
  unfold TokenHistory.extractIdentifier
  rw [hfind]

theorem TokenHistory.extract_found (h : TokenHistory) (ident : Nat) (tok : String)
    (hnd : (h.history.map Prod.fst).Nodup) (hmem : (ident, tok) ∈ h.history) :
    h.extractIdentifier ident
      = (some tok,
          ⟨h.maxSize, h.identifier, h.history.filter (fun p => p.1 != ident)⟩) := by
  have hissome : (h.history.find? (fun p => p.1 == ident)).isSome := by
    rw [List.find?_isSome]
    exact ⟨(ident, tok), hmem, by simp⟩
  obtain ⟨q, hq⟩ := Option.isSome_iff_exists.mp hissome
  have hqmem : q ∈ h.history := List.mem_of_find?_eq_some hq
  have hqp : q.1 = ident := by
    have := List.find?_some hq
    simpa using this
  have hqeq : q = (ident, tok) :=
    List.inj_on_of_nodup_map hnd hqmem hmem (by simpa using hqp)
  unfold TokenHistory.extractIdentifier
  rw [hq, hqeq, eraseP_eq_filter_of_nodup ident h.history hnd]

/-- C3: `extractIdentifier` removes exactly the live entry carrying the
requested identifier (wherever it sits) and returns its token, keeping
every other entry in its original relative order; when no entry matches, it
returns none and the whole history state is unchanged. -/
theorem tokenHistory_extract (h : TokenHistory) (ident : Nat) :
    ((∀ tok, (ident, tok) ∉ h.history) → h.extractIdentifier ident = (none, h)) ∧
      (∀ tok, (h.history.map Prod.fst).Nodup → (ident, tok) ∈ h.history →
        h.extractIdentifier ident
          = (some tok,
              ⟨h.maxSize, h.identifier, h.history.filter (fun p => p.1 != ident)⟩)) :=
  ⟨TokenHistory.extract_not_found h ident,
    fun tok hnd hmem => TokenHistory.extract_found h ident tok hnd hmem⟩

/-- Witness for C3: in the history `[(3, three), (4, four), (5, five)]`,
extracting the middle identifier 4 returns its token and keeps the other
two entries in order; extracting the absent 9999 changes nothing. -/
theorem tokenHistory_extract_witness :
    TokenHistory.extractIdentifier ⟨5, 7, [(3, "three"), (4, "four"), (5, "five")]⟩ 4
        = (some "four", ⟨5, 7, [(3, "three"), (5, "five")]⟩) ∧
      TokenHistory.extractIdentifier ⟨5, 7, [(3, "three"), (4, "four"), (5, "five")]⟩ 9999
        = (none, ⟨5, 7, [(3, "three"), (4, "four"), (5, "five")]⟩) := by
  constructor
  · have h := (tokenHistory_extract ⟨5, 7, [(3, "three"), (4, "four"), (5, "five")]⟩ 4).2
      "four" (by decide) (by decide)
    rw [h]
    decide
  · exact (tokenHistory_extract ⟨5, 7, [(3, "three"), (4, "four"), (5, "five")]⟩ 9999).1
      (by intro tok h; simp at h)

/-- Counterexample for C4 as stated: for a status code other than 8 (here
status 1) with a live entry for the identifier, the history IS mutated —
the entry is removed by the extraction — contradicting "for any other
status code no store or history state is mutated". -/
theorem processError_history_mutated_on_other_status :
    (processError 1 1 ⟨5, 1, [(1, "aa")]⟩ []).1.history = [] ∧
      (⟨5, 1, [(1, "aa")]⟩ : TokenHistory).history = [(1, "aa")] := by
  decide

/-- C4 (amended): `processError(status, identifier)` looks the token up via
`TokenHistory.extractIdentifier`; if no entry matches, the call is a no-op;
if an entry matches, the history entry is removed by the extraction
regardless of status; when the status is the invalid-token code 8 all
subscriptions for the token are additionally deleted from the store, so a
repeat report for the same identifier is a no-op; for any other status code
the store (though not the history) is unmutated. -/
theorem processError_spec (status ident : Nat) (hist : TokenHistory)
    (store : List Subscription) :
    ((∀ tok, (ident, tok) ∉ hist.history) →
        processError status ident hist store = (hist, store)) ∧
      (∀ tok, (hist.history.map Prod.fst).Nodup → (ident, tok) ∈ hist.history →
        (processError status ident hist store).1.history
            = hist.history.filter (fun p => p.1 != ident) ∧
          (status = 8 →
            (processError status ident hist store).2
              = store.filter (fun s => s.token != tok)) ∧
          (status ≠ 8 → (processError status ident hist store).2 = store) ∧
          processError status ident (processError status ident hist store).1
              (processError status ident hist store).2
            = ((processError status ident hist store).1,
                (processError status ident hist store).2)) := by
  constructor
  · intro hno
    rw [processError, TokenHistory.extract_not_found hist ident hno]
  · intro tok hnd hmem
    have hx : processError status ident hist store
        = (⟨hist.maxSize, hist.identifier, hist.history.filter (fun p => p.1 != ident)⟩,
            if status = 8 then store.filter (fun s => s.token != tok) else store) := by
      rw [processError, TokenHistory.extract_found hist ident tok hnd hmem]
      by_cases hs : status = 8
      · simp [hs]
      · simp [hs]
    have hno' : ∀ tok',
        (ident, tok') ∉ hist.history.filter (fun p => p.1 != ident) := by
      intro tok' hmem'
      have := (List.mem_filter.mp hmem').2
      simp at this
    refine ⟨by rw [hx], ?_, ?_, ?_⟩
    · intro h8
      rw [hx, if_pos h8]
    · intro hne
      rw [hx, if_neg hne]
    · rw [hx]
      rw [processError, TokenHistory.extract_not_found _ ident hno']

/-- Witness for C4 (amended): an invalid-token report (status 8) for
identifier 2 deletes all subscriptions for token "bb" and the history
entry; a repeat report for the same identifier is then a no-op. -/
theorem processError_spec_witness :
    ((⟨5, 2, [(1, "aa"), (2, "bb")]⟩ : TokenHistory).history.map Prod.fst).Nodup ∧
      (2, "bb") ∈ (⟨5, 2, [(1, "aa"), (2, "bb")]⟩ : TokenHistory).history ∧
      (processError 8 2 ⟨5, 2, [(1, "aa"), (2, "bb")]⟩
          [⟨"bb", "k1", 10, "u"⟩, ⟨"cc", "k2", 20, "u"⟩]).1.history = [(1, "aa")] ∧
      (processError 8 2 ⟨5, 2, [(1, "aa"), (2, "bb")]⟩
          [⟨"bb", "k1", 10, "u"⟩, ⟨"cc", "k2", 20, "u"⟩]).2 = [⟨"cc", "k2", 20, "u"⟩] ∧
      processError 8 2 (processError 8 2 ⟨5, 2, [(1, "aa"), (2, "bb")]⟩
            [⟨"bb", "k1", 10, "u"⟩, ⟨"cc", "k2", 20, "u"⟩]).1
          (processError 8 2 ⟨5, 2, [(1, "aa"), (2, "bb")]⟩
            [⟨"bb", "k1", 10, "u"⟩, ⟨"cc", "k2", 20, "u"⟩]).2
        = ((processError 8 2 ⟨5, 2, [(1, "aa"), (2, "bb")]⟩
            [⟨"bb", "k1", 10, "u"⟩, ⟨"cc", "k2", 20, "u"⟩]).1,
           (processError 8 2 ⟨5, 2, [(1, "aa"), (2, "bb")]⟩
            [⟨"bb", "k1", 10, "u"⟩, ⟨"cc", "k2", 20, "u"⟩]).2) := by
  have h := (processError_spec 8 2 ⟨5, 2, [(1, "aa"), (2, "bb")]⟩
      [⟨"bb", "k1", 10, "u"⟩, ⟨"cc", "k2", 20, "u"⟩]).2 "bb" (by decide) (by decide)
  exact ⟨by decide, by decide, by decide, by decide, h.2.2.2⟩

/-- C5: feedback-driven purge is strict-older-than.  A decoded 38-byte
feedback frame purges exactly the subscriptions whose token matches the
frame token (hex of bytes 6..37) and whose `modified` is strictly older
than the frame timestamp (big-endian bytes 0..3); any subscription of the
same token with `modified` at or after the timestamp survives. -/
theorem feedback_purge_strict (frame : List Nat) (h38 : frame.length = 38)
    (store : List Subscription) (s : Subscription) :
    s ∈ applyFeedbackFrame frame store ↔
      s ∈ store ∧ ¬(s.token = fromBinary (frame.drop 6)
        ∧ s.modified < beNat (frame.take 4)) := by
  rw [applyFeedbackFrame, if_pos h38, purgeFeedback, List.mem_filter]
  constructor
  · rintro ⟨hs, hb⟩
    refine ⟨hs, ?_⟩
    rintro ⟨h1, h2⟩
    rw [h1] at hb
    simp [h2] at hb
  · rintro ⟨hs, hn⟩
    refine ⟨hs, ?_⟩
    by_cases h1 : s.token = fromBinary (frame.drop 6)
    · have h2 : ¬ s.modified < beNat (frame.take 4) := fun h2 => hn ⟨h1, h2⟩
      simp [h1, h2]
    · simp [h1]


/-- Witness for C5: a frame with timestamp 2000 and the all-zero token
purges the matching subscription modified at 1000 and leaves the one
modified at 3000. -/
theorem feedback_purge_strict_witness :
    ([0, 0, 7, 208, 0, 32] ++ List.replicate 32 0).length = 38 ∧
      (Subscription.mk
          "0000000000000000000000000000000000000000000000000000000000000000"
          "k1" 1000 "u"
        ∈ applyFeedbackFrame ([0, 0, 7, 208, 0, 32] ++ List.replicate 32 0)
          [⟨"0000000000000000000000000000000000000000000000000000000000000000",
              "k1", 1000, "u"⟩,
            ⟨"0000000000000000000000000000000000000000000000000000000000000000",
              "k2", 3000, "u"⟩]
        ↔ (Subscription.mk
              "0000000000000000000000000000000000000000000000000000000000000000"
              "k1" 1000 "u"
            ∈ [⟨"0000000000000000000000000000000000000000000000000000000000000000",
                  "k1", 1000, "u"⟩,
                ⟨"0000000000000000000000000000000000000000000000000000000000000000",
                  "k2", 3000, "u"⟩] ∧
            ¬("0000000000000000000000000000000000000000000000000000000000000000"
                = fromBinary (([0, 0, 7, 208, 0, 32] ++ List.replicate 32 0).drop 6)
              ∧ 1000 < beNat (([0, 0, 7, 208, 0, 32] ++ List.replicate 32 0).take 4)))) ∧
      applyFeedbackFrame ([0, 0, 7, 208, 0, 32] ++ List.replicate 32 0)
          [⟨"0000000000000000000000000000000000000000000000000000000000000000",
              "k1", 1000, "u"⟩,
            ⟨"0000000000000000000000000000000000000000000000000000000000000000",
              "k2", 3000, "u"⟩]
        = [⟨"0000000000000000000000000000000000000000000000000000000000000000",
              "k2", 3000, "u"⟩] := by
  refine ⟨by decide, feedback_purge_strict _ (by decide) _ _, by decide⟩

theorem beNat_be4 (v : Nat) (hv : v < 4294967296) : beNat (be4 v) = v := by
  simp only [beNat, be4, List.foldl]
  omega

theorem beNat_be2 (v : Nat) (hv : v < 65536) : beNat (be2 v) = v := by
  simp only [beNat, be2, List.foldl]
  omega

theorem strBytes_append (a b : String) : strBytes (a ++ b) = strBytes a ++ strBytes b := by
  simp [strBytes, String.data_append]

theorem payloadBytes_decomp (key : String) (dct pst : Nat) :
    payloadBytes key dct pst
      = strBytes "\x7b\"key\" : \"" ++ strBytes key
        ++ strBytes "\", \"" ++ strBytes "dataChangedTimestamp" ++ strBytes "\" : "
        ++ strBytes (toString dct)
        ++ strBytes ", \"" ++ strBytes "pushRequestSubmittedTimestamp" ++ strBytes "\" : "
        ++ strBytes (toString pst) ++ strBytes "\x7d" := by
  simp [payloadBytes, jsonPayload, strBytes_append]

theorem itemsOf_length (tokenBin payload : List Nat) (hTok : tokenBin.length = 32)
    (ident expiration priorityByte : Nat) :
    (itemsOf tokenBin payload ident expiration priorityByte).length = 56 + payload.length := by
  simp [itemsOf, apnItem, be2, be4, hTok]
  omega

/-- C6: outbound wire format.  Every encoded notification frame starts with
command byte 2 followed by a 4-byte big-endian frame length equal to the
byte count of the items alone (total length minus the 5-byte header); the
items follow in the fixed order 1 (32-byte device token), 2 (JSON payload
containing key, dataChangedTimestamp and pushRequestSubmittedTimestamp),
3 (4-byte notification identifier), 4 (4-byte expiration epoch), 5 (1-byte
priority), each prefixed by its 1-byte id and 2-byte big-endian length. -/
theorem outbound_frame_format (tokenBin : List Nat) (hTok : tokenBin.length = 32)
    (key : String) (dct pst ident expiration priorityByte : Nat)
    (hpl : (payloadBytes key dct pst).length < 65536) :
    (encodeNotification tokenBin key dct pst ident expiration priorityByte).take 1 = [2] ∧
      beNat (((encodeNotification tokenBin key dct pst ident expiration priorityByte).drop 1).take 4)
        = (encodeNotification tokenBin key dct pst ident expiration priorityByte).length - 5 ∧
      (encodeNotification tokenBin key dct pst ident expiration priorityByte).drop 5
        = apnItem 1 tokenBin ++ apnItem 2 (payloadBytes key dct pst)
          ++ apnItem 3 (be4 ident) ++ apnItem 4 (be4 expiration) ++ apnItem 5 [priorityByte] ∧
      apnItem 1 tokenBin = [1, 0, 32] ++ tokenBin ∧
      apnItem 2 (payloadBytes key dct pst)
        = 2 :: be2 (payloadBytes key dct pst).length ++ payloadBytes key dct pst ∧
      beNat (be2 (payloadBytes key dct pst).length) = (payloadBytes key dct pst).length ∧
      apnItem 3 (be4 ident) = [3, 0, 4] ++ be4 ident ∧
      apnItem 4 (be4 expiration) = [4, 0, 4] ++ be4 expiration ∧
      apnItem 5 [priorityByte] = [5, 0, 1, priorityByte] ∧
      (∃ l r, payloadBytes key dct pst = l ++ strBytes "key" ++ r) ∧
      (∃ l r, payloadBytes key dct pst = l ++ strBytes "dataChangedTimestamp" ++ r) ∧
      (∃ l r, payloadBytes key dct pst = l ++ strBytes "pushRequestSubmittedTimestamp" ++ r) := by
  have hlenI := itemsOf_length tokenBin (payloadBytes key dct pst) hTok ident
    expiration priorityByte
  have hbound : (itemsOf tokenBin (payloadBytes key dct pst)
      ident expiration priorityByte).length < 4294967296 := by
    omega
  refine ⟨rfl, ?_, rfl, by simp [apnItem, be2, hTok], rfl, beNat_be2 _ hpl,
    by simp [apnItem, be2, be4], by simp [apnItem, be2, be4],
    by simp [apnItem, be2], ?_, ?_, ?_⟩
  · have h14 : ((encodeNotification tokenBin key dct pst ident expiration priorityByte).drop 1).take 4
        = be4 (itemsOf tokenBin (payloadBytes key dct pst)
            ident expiration priorityByte).length := rfl
    have hlen5 : (encodeNotification tokenBin key dct pst ident expiration priorityByte).length
        = (itemsOf tokenBin (payloadBytes key dct pst)
            ident expiration priorityByte).length + 5 := by
      simp [encodeNotification, encodeFrame, be4]
    rw [h14, beNat_be4 _ hbound, hlen5]
    omega
  · refine ⟨strBytes "\x7b\"", strBytes "\" : \"" ++ strBytes key
      ++ strBytes "\", \"" ++ strBytes "dataChangedTimestamp" ++ strBytes "\" : "
      ++ strBytes (toString dct)
      ++ strBytes ", \"" ++ strBytes "pushRequestSubmittedTimestamp" ++ strBytes "\" : "
      ++ strBytes (toString pst) ++ strBytes "\x7d", ?_⟩
    rw [payloadBytes_decomp,
      show strBytes "\x7b\"key\" : \""
          = strBytes "\x7b\"" ++ strBytes "key" ++ strBytes "\" : \"" by decide]
    simp [List.append_assoc]
  · refine ⟨strBytes "\x7b\"key\" : \"" ++ strBytes key ++ strBytes "\", \"",
      strBytes "\" : " ++ strBytes (toString dct)
      ++ strBytes ", \"" ++ strBytes "pushRequestSubmittedTimestamp" ++ strBytes "\" : "
      ++ strBytes (toString pst) ++ strBytes "\x7d", ?_⟩
    rw [payloadBytes_decomp]
    simp [List.append_assoc]
  · refine ⟨strBytes "\x7b\"key\" : \"" ++ strBytes key
      ++ strBytes "\", \"" ++ strBytes "dataChangedTimestamp" ++ strBytes "\" : "
      ++ strBytes (toString dct) ++ strBytes ", \"",
      strBytes "\" : " ++ strBytes (toString pst) ++ strBytes "\x7d", ?_⟩
    rw [payloadBytes_decomp]
    simp [List.append_assoc]

/-- Witness for C6: a concrete frame (32-byte token of 0xab bytes, key
"/k", small timestamps) has command byte 2 and a frame-length field equal
to its total length minus the 5-byte header. -/
theorem outbound_frame_format_witness :
    (List.replicate 32 171 : List Nat).length = 32 ∧
      (payloadBytes "/k" 5 6).length < 65536 ∧
      (encodeNotification (List.replicate 32 171) "/k" 5 6 2 100 10).take 1 = [2] ∧
      beNat (((encodeNotification (List.replicate 32 171) "/k" 5 6 2 100 10).drop 1).take 4)
        = (encodeNotification (List.replicate 32 171) "/k" 5 6 2 100 10).length - 5 := by
  have h := outbound_frame_format (List.replicate 32 171) (by decide) "/k" 5 6 2 100 10
    (by decide)
  exact ⟨by decide, by decide, h.1, h.2.1⟩

/-- C7: enqueue fan-out and drain-on-connect.  `enqueue(resourceKey, ts,
priority)` pushes one QueuedNotification `((token, resourceKey), ts,
priority)` onto the queue of each identity whose namespace part begins the
resource key, one per matching subscription (order and count preserved);
identities whose namespace does not match, and the connection flag, are
untouched, so items enqueued while disconnected stay queued; on connect
every queued item is framed and sent in order and the queue becomes
empty. -/
theorem enqueue_fanout (idents : List Identity) (store : List Subscription)
    (key : String) (ts : Nat) (prio : PushPriority) :
    (serviceEnqueue idents store key ts prio).length = idents.length ∧
      (∀ i : Nat, (serviceEnqueue idents store key ts prio)[i]?
          = (idents[i]?).map (enqueueIdentity store key ts prio)) ∧
      (∀ idn : Identity, inNamespace idn.pfx key = true →
        (enqueueIdentity store key ts prio idn).queue
            = idn.queue ++ (matchingSubs store key).map
                (fun s => ⟨s.token, key, ts, prio⟩) ∧
          (enqueueIdentity store key ts prio idn).queue.length
            = idn.queue.length + (matchingSubs store key).length ∧
          (enqueueIdentity store key ts prio idn).connected = idn.connected) ∧
      (∀ idn : Identity, inNamespace idn.pfx key = false →
        enqueueIdentity store key ts prio idn = idn) ∧
      (∀ (frameOf : QueuedNotification → List Nat) (idn : Identity),
        (connectAndDrain frameOf idn).1 = idn.queue.map frameOf ∧
          (connectAndDrain frameOf idn).2.queue = [] ∧
          (connectAndDrain frameOf idn).2.connected = true) := by
  refine ⟨by simp [serviceEnqueue], ?_, ?_, ?_, fun frameOf idn => ⟨rfl, rfl, rfl⟩⟩
  · intro i
    simp [serviceEnqueue]
  · intro idn hp
    refine ⟨?_, ?_, ?_⟩
    · rw [enqueueIdentity, if_pos hp]
    · rw [enqueueIdentity, if_pos hp]
      simp
    · rw [enqueueIdentity, if_pos hp]
  · intro idn hp
    rw [enqueueIdentity, if_neg (by simp [hp])]

/-- Witness for C7: two subscriptions for the key under one "/CalDAV/"
identity produce exactly two queued items (the third, non-matching
subscription contributes none), and draining on connect sends both and
empties the queue. -/
theorem enqueue_fanout_witness :
    inNamespace (⟨"/CalDAV/", false, []⟩ : Identity).pfx
        "/CalDAV/cal/user01/" = true ∧
      (enqueueIdentity
          [⟨"t1", "/CalDAV/cal/user01/", 1000, "u"⟩,
            ⟨"t2", "/CalDAV/cal/user01/", 1000, "u"⟩,
            ⟨"t3", "/CalDAV/cal/user02/", 1000, "u"⟩]
          "/CalDAV/cal/user01/" 1354815999 PushPriority.high
          ⟨"/CalDAV/", false, []⟩).queue
        = [] ++ (matchingSubs
            [⟨"t1", "/CalDAV/cal/user01/", 1000, "u"⟩,
              ⟨"t2", "/CalDAV/cal/user01/", 1000, "u"⟩,
              ⟨"t3", "/CalDAV/cal/user02/", 1000, "u"⟩]
            "/CalDAV/cal/user01/").map
            (fun s => ⟨s.token, "/CalDAV/cal/user01/", 1354815999, PushPriority.high⟩) ∧
      (enqueueIdentity
          [⟨"t1", "/CalDAV/cal/user01/", 1000, "u"⟩,
            ⟨"t2", "/CalDAV/cal/user01/", 1000, "u"⟩,
            ⟨"t3", "/CalDAV/cal/user02/", 1000, "u"⟩]
          "/CalDAV/cal/user01/" 1354815999 PushPriority.high
          ⟨"/CalDAV/", false, []⟩).queue
        = [⟨"t1", "/CalDAV/cal/user01/", 1354815999, PushPriority.high⟩,
            ⟨"t2", "/CalDAV/cal/user01/", 1354815999, PushPriority.high⟩] ∧
      (connectAndDrain (fun _ => [0])
          ⟨"/CalDAV/", true,
            [⟨"t1", "/CalDAV/cal/user01/", 1354815999, PushPriority.high⟩,
              ⟨"t2", "/CalDAV/cal/user01/", 1354815999, PushPriority.high⟩]⟩).2.queue
        = [] := by
  have h := (enqueue_fanout [⟨"/CalDAV/", false, []⟩]
      [⟨"t1", "/CalDAV/cal/user01/", 1000, "u"⟩,
        ⟨"t2", "/CalDAV/cal/user01/", 1000, "u"⟩,
        ⟨"t3", "/CalDAV/cal/user02/", 1000, "u"⟩]
      "/CalDAV/cal/user01/" 1354815999 PushPriority.high).2.2.1
      ⟨"/CalDAV/", false, []⟩ (by decide)
  exact ⟨by decide, h.1, by decide, by decide⟩

theorem range_filter_lt_length (n k : Nat) :
    ((List.range n).filter (fun i => decide (i < k))).length = min n k := by
  induction n with
  | zero => simp
  | succ n ih =>
    rw [List.range_succ, List.filter_append, List.length_append, ih]
    by_cases h : n < k
    · simp only [List.filter_cons, List.filter_nil, decide_eq_true_eq, if_pos h]
      simp only [List.length_singleton]
      omega
    · simp only [List.filter_cons, List.filter_nil, decide_eq_true_eq, if_neg h]
      simp only [List.length_nil]
      omega

theorem sentBy_sendTimes (start count d : Nat) :
    sentBy (start + d) (sendTimes true 3 start count) = min count (d / 3 + 1) := by
  rw [sendTimes, sentBy, List.filter_map, List.length_map]
  rw [List.filter_congr (q := fun i => decide (i < d / 3 + 1)) ?_]
  · exact range_filter_lt_length count (d / 3 + 1)
  · intro i _
    simp only [Function.comp, eq_self_iff_true, if_true, decide_eq_decide]
    constructor
    · intro hle
      omega
    · intro hlt
      omega

/-- C8: staggered sending with interval 3 — a notification enqueued while
the connection is available is sent immediately (already counted at the
enqueue instant, with no clock advance); at most one item is sent per
3-second interval, so while fewer than 3 seconds have elapsed only the
first item has been sent and the second goes out once 3 seconds have
passed; in general the number of items sent by `start + d` is
`min count (d / 3 + 1)`. -/
theorem staggered_sending (start count d : Nat) :
    sentBy (start + d) (sendTimes true 3 start count) = min count (d / 3 + 1) ∧
      (0 < count → sentBy start (sendTimes true 3 start count) = 1) ∧
      (∀ e, e < 3 → sentBy (start + e) (sendTimes true 3 start count) = min count 1) ∧
      (2 ≤ count → sentBy (start + 3) (sendTimes true 3 start count) = 2) := by
  refine ⟨sentBy_sendTimes start count d, ?_, ?_, ?_⟩
  · intro hc
    have h0 := sentBy_sendTimes start count 0
    rw [Nat.add_zero] at h0
    rw [h0]
    omega
  · intro e he
    rw [sentBy_sendTimes]
    have hz : e / 3 = 0 := Nat.div_eq_of_lt he
    rw [hz]
  · intro h2
    rw [sentBy_sendTimes]
    omega

/-- Witness for C8: two items enqueued at time 0 with interval 3 — one is
sent with no clock advance, still only one has gone out at time 2, and the
second has gone out at time 3. -/
theorem staggered_sending_witness :
    sentBy 0 (sendTimes true 3 0 2) = 1 ∧
      sentBy 2 (sendTimes true 3 0 2) = min 2 1 ∧
      sentBy 3 (sendTimes true 3 0 2) = 2 := by
  refine ⟨(staggered_sending 0 2 0).2.1 (by decide), ?_, ?_⟩
  · have h := (staggered_sending 0 2 0).2.2.1 2 (by decide)
    simpa using h
  · have h := (staggered_sending 0 2 0).2.2.2 (by decide)
    simpa using h

/-- C9: `validToken(text)` is true if and only if the text is exactly 64
characters and every character is a hexadecimal digit, with uppercase hex
also accepted; any other length (the empty string included) or any non-hex
character makes it false. -/
theorem validToken_spec (text : String) :
    (validToken text = true ↔
      (text.length = 64 ∧ ∀ c ∈ text.data,
        ('0' ≤ c ∧ c ≤ '9') ∨ ('a' ≤ c ∧ c ≤ 'f') ∨ ('A' ≤ c ∧ c ≤ 'F'))) ∧
      (text.length ≠ 64 → validToken text = false) ∧
      validToken "" = false := by
  refine ⟨?_, ?_, by decide⟩
  · rw [validToken]
    simp only [Bool.and_eq_true, beq_iff_eq, List.all_eq_true, isHexChar,
      Bool.or_eq_true, decide_eq_true_eq]
    constructor
    · rintro ⟨h1, h2⟩
      exact ⟨h1, fun c hc => by rcases h2 c hc with (h | h) | h <;> tauto⟩
    · rintro ⟨h1, h2⟩
      exact ⟨h1, fun c hc => by rcases h2 c hc with h | h | h <;> tauto⟩
  · intro hne
    rw [validToken]
    simp [hne]

/-- Witness for C9: the 64-char lowercase token validates, its uppercase
form validates, the 63-char truncation does not, nor does the empty
string. -/
theorem validToken_spec_witness :
    validToken "2d0d55cd7f98bcb81c6e24abcdc35168254c7846a43e2828b1ba5a8f82e219df"
        = true ∧
      validToken "2D0D55CD7F98BCB81C6E24ABCDC35168254C7846A43E2828B1BA5A8F82E219DF"
        = true ∧
      ("d0d55cd7f98bcb81c6e24abcdc35168254c7846a43e2828b1ba5a8f82e219df" : String).length
        ≠ 64 ∧
      validToken "d0d55cd7f98bcb81c6e24abcdc35168254c7846a43e2828b1ba5a8f82e219df"
        = false ∧
      validToken "" = false := by
  refine ⟨?_, ?_, by decide, ?_, ?_⟩
  · exact (validToken_spec
      "2d0d55cd7f98bcb81c6e24abcdc35168254c7846a43e2828b1ba5a8f82e219df").1.mpr
      ⟨by decide, by decide⟩
  · exact (validToken_spec
      "2D0D55CD7F98BCB81C6E24ABCDC35168254C7846A43E2828B1BA5A8F82E219DF").1.mpr
      ⟨by decide, by decide⟩
  · exact (validToken_spec
      "d0d55cd7f98bcb81c6e24abcdc35168254c7846a43e2828b1ba5a8f82e219df").2.1
      (by decide)
  · exact (validToken_spec "").2.2

end ApplePush
